import Mathlib

/-!
Verification development for the LiveEvalJS snippet-evaluation engine.

The TypeScript sources are embedded shallowly:
* JavaScript strings are modelled as `Str := List Char`, and the JavaScript
  string methods the sources use (`trim`, `split`, regex matches) are spelled
  out as explicit list functions.
* The Node `vm` host that executes snippet text is modelled by a small
  executable interpreter (`MicroJs`) covering exactly the language fragment the
  engine's own transformations produce and the claims exercise: literals,
  identifiers, assignment, addition, `typeof`, and `console.<level>(...)`
  calls.  Scripts are compiled in full before execution (a syntax error
  anywhere prevents any effect), assignments create properties on the sandbox
  object, reading an unbound identifier raises a ReferenceError, and console
  writes push formatted lines into a per-context buffer, mirroring the
  behaviour of `vm.runInContext` on the code the engine generates.
* Stateful classes become explicit state passing; thrown exceptions become
  `Except` / error-tagged results.
-/

namespace MicroJs

/-- JavaScript strings, modelled as character lists. -/
abbrev Str := List Char

/-- Runtime values of the modelled JavaScript fragment.  `hostObj` stands for
an opaque host-provided global (Math, Array, ...) whose internals the claims
never inspect. -/
inductive JsVal where
  | undef
  | null
  | num (n : Int)
  | str (s : Str)
  | bool (b : Bool)
  | hostObj (tag : Str)
  deriving Repr, DecidableEq

/-- Errors a script can raise at compile or run time. -/
inductive JsErr where
  | refErr (name : Str)
  | synErr (msg : Str)
  | typeErr (msg : Str)
  deriving Repr, DecidableEq

/-- The message text carried by an error, as the engine observes it. -/
def JsErr.message : JsErr → Str
  | .refErr n => n ++ (" is not defined").toList
  | .synErr m => ("SyntaxError: ").toList ++ m
  | .typeErr m => ("TypeError: ").toList ++ m

/-- Whether an error is a syntax error (`ex.name === 'SyntaxError'`). -/
def JsErr.isSyntaxErr : JsErr → Bool
  | .synErr _ => true
  | _ => false

/-- The sandbox's global object: property name to value, latest binding
first. -/
abbrev Env := List (Str × JsVal)

def envLookup (e : Env) (n : Str) : Option JsVal :=
  match e with
  | [] => none
  | (k, v) :: rest => if k = n then some v else envLookup rest n

/-- Property assignment on the sandbox object (non-strict global write). -/
def envSet (n : Str) (v : JsVal) (e : Env) : Env := (n, v) :: e

def envHasKey (e : Env) (n : Str) : Bool := (envLookup e n).isSome

/-- `typeof` of a (possibly missing) binding, as the vm reports it. -/
def typeofName (e : Env) (n : Str) : Str :=
  match envLookup e n with
  | none => ("undefined").toList
  | some .undef => ("undefined").toList
  | some .null => ("object").toList
  | some (.num _) => ("number").toList
  | some (.str _) => ("string").toList
  | some (.bool _) => ("boolean").toList
  | some (.hostObj _) => ("object").toList

/-- `String(v)` coercion for the values the model covers. -/
def jsToString : JsVal → Str
  | .undef => ("undefined").toList
  | .null => ("null").toList
  | .num n =>
      if n < 0 then ("-").toList ++ Nat.toDigits 10 n.natAbs
      else Nat.toDigits 10 n.toNat
  | .str s => s
  | .bool b => if b then ("true").toList else ("false").toList
  | .hostObj _ => ("[object Object]").toList

/- ### Character classes and JavaScript string helpers -/

def quoteCh : Char := Char.ofNat 39   -- single quote
def dquoteCh : Char := Char.ofNat 34  -- double quote

def isWs (c : Char) : Bool := c = ' ' || c = '\t' || c = '\n' || c = '\r'

/-- `\s*` from the left and the right: JavaScript `String.prototype.trim`. -/
def jsTrim (s : Str) : Str :=
  ((s.dropWhile isWs).reverse.dropWhile isWs).reverse

/-- First character of `[a-zA-Z_$]`. -/
def isIdStart (c : Char) : Bool :=
  (c ≥ 'a' && c ≤ 'z') || (c ≥ 'A' && c ≤ 'Z') || c = '_' || c = '$'

/-- Continuation character of `[a-zA-Z0-9_$]`. -/
def isIdChar (c : Char) : Bool := isIdStart c || (c ≥ '0' && c ≤ '9')

/-- Whole-string identifier test. -/
def isIdent (s : Str) : Bool :=
  match s with
  | [] => false
  | c :: cs => isIdStart c && cs.all isIdChar

/- ### Top-level scanning (parenthesis depth and quote aware) -/

/-- Split the input at the first separator position at parenthesis depth 0 and
outside string quotes.  The separator test sees the previous character, the
candidate, and the next character (for `=` disambiguation). -/
def splitTop (isSep : Option Char → Char → Option Char → Bool) :
    Str → Option Char → Nat → Option Char → Option (Str × Str)
  | [], _, _, _ => none
  | c :: cs, prev, d, q =>
      if q.isNone && d = 0 && isSep prev c cs.head? then
        some ([], cs)
      else
        let q' := match q with
          | some qc => if c = qc then none else some qc
          | none => if c = quoteCh || c = dquoteCh then some c else none
        let d' := if q.isSome then d
          else if c = '(' then d + 1
          else if c = ')' then d - 1 else d
        match splitTop isSep cs (some c) d' q' with
        | some (l, r) => some (c :: l, r)
        | none => none

/-- Split the input at every separator at depth 0 outside quotes. -/
def splitAllTop (isSep : Char → Bool) :
    Str → Nat → Option Char → Str → List Str
  | [], _, _, acc => [acc.reverse]
  | c :: cs, d, q, acc =>
      if q.isNone && d = 0 && isSep c then
        acc.reverse :: splitAllTop isSep cs d q []
      else
        let q' := match q with
          | some qc => if c = qc then none else some qc
          | none => if c = quoteCh || c = dquoteCh then some c else none
        let d' := if q.isSome then d
          else if c = '(' then d + 1
          else if c = ')' then d - 1 else d
        splitAllTop isSep cs d' q' (c :: acc)

/-- Does the parenthesis depth stay non-negative throughout (so a leading `(`
matches the final `)`)? -/
def depthStaysPos : Str → Nat → Option Char → Bool
  | [], d, _ => d = 0
  | c :: cs, d, some qc =>
      depthStaysPos cs d (if c = qc then none else some qc)
  | c :: cs, d, none =>
      if c = quoteCh || c = dquoteCh then depthStaysPos cs d (some c)
      else if c = '(' then depthStaysPos cs (d + 1) none
      else if c = ')' then (d ≠ 0) && depthStaysPos cs (d - 1) none
      else depthStaysPos cs d none

/- ### The expression fragment -/

inductive Expr where
  | lit (v : JsVal)
  | ident (name : Str)
  | typeofE (name : Str)
  | assign (name : Str) (rhs : Expr)
  | add (l r : Expr)
  | logCall (level : Str) (arg : Option Expr)
  deriving Repr

def assignSep (prev : Option Char) (c : Char) (next : Option Char) : Bool :=
  c = '=' &&
    (match prev with
     | some p => p ≠ '=' && p ≠ '<' && p ≠ '>' && p ≠ '!'
     | none => true) &&
    (match next with
     | some nx => nx ≠ '=' && nx ≠ '>'
     | none => true)

def plusSep (_prev : Option Char) (c : Char) (_next : Option Char) : Bool :=
  c = '+'

def consoleLevels : List Str :=
  [("log").toList, ("warn").toList, ("error").toList, ("info").toList,
   ("debug").toList, ("trace").toList]

/-- If `t` is `console.<level>(inner)` with the final `)` matching, return the
level and the argument text. -/
def matchConsoleCall (t : Str) : Option (Str × Str) :=
  match t.dropPrefix? ("console.").toList with
  | none => none
  | some rest =>
      let level := rest.takeWhile isIdChar
      if consoleLevels.contains level then
        match (rest.drop level.length) with
        | '(' :: more =>
            match more.reverse with
            | ')' :: innerRev =>
                let inner := innerRev.reverse
                if depthStaysPos inner 0 none then some (level, inner)
                else none
            | _ => none
        | _ => none
      else none

/-- If `t` is `(inner)` with the leading `(` matching the final `)`, return the
inner text. -/
def stripParens (t : Str) : Option Str :=
  match t with
  | '(' :: more =>
      match more.reverse with
      | ')' :: innerRev =>
          let inner := innerRev.reverse
          if depthStaysPos inner 0 none then some inner else none
      | _ => none
  | _ => none

def parseAtom (t : Str) : Option Expr :=
  if t = ("undefined").toList then some (.lit .undef)
  else if t = ("null").toList then some (.lit .null)
  else if t = ("true").toList then some (.lit (.bool true))
  else if t = ("false").toList then some (.lit (.bool false))
  else if t ≠ [] && t.all (fun c => c ≥ '0' && c ≤ '9') then
    some (.lit (.num (Int.ofNat (t.foldl (fun n c => n * 10 + (c.toNat - 48)) 0))))
  else
    match t with
    | c :: rest =>
        if c = quoteCh || c = dquoteCh then
          match rest.reverse with
          | e :: midRev =>
              if e = c && (midRev.all (fun x => x ≠ quoteCh && x ≠ dquoteCh)) then
                some (.lit (.str midRev.reverse))
              else none
          | [] => none
        else if isIdent t then some (.ident t) else none
    | [] => none

/-- Fuel-bounded recursive-descent parser for the expression fragment (the
modelled console calls take at most one argument). -/
def parseExprF : Nat → Str → Option Expr
  | 0, _ => none
  | fuel + 1, s =>
      let t := jsTrim s
      if t = [] then none
      else
        match stripParens t with
        | some inner => parseExprF fuel inner
        | none =>
            match splitTop assignSep t none 0 none with
            | some (l, r) =>
                let lhs := jsTrim l
                if isIdent lhs then
                  match parseExprF fuel r with
                  | some rhs => some (.assign lhs rhs)
                  | none => none
                else none
            | none =>
                match splitTop plusSep t none 0 none with
                | some (l, r) =>
                    match parseExprF fuel l, parseExprF fuel r with
                    | some a, some b => some (.add a b)
                    | _, _ => none
                | none =>
                    match matchConsoleCall t with
                    | some (level, inner) =>
                        if jsTrim inner = [] then some (.logCall level none)
                        else
                          match parseExprF fuel inner with
                          | some arg => some (.logCall level (some arg))
                          | none => none
                    | none =>
                        match t.dropPrefix? ("typeof").toList with
                        | some (c :: rest) =>
                            if isWs c && isIdent (jsTrim (c :: rest)) then
                              some (.typeofE (jsTrim (c :: rest)))
                            else parseAtom t
                        | _ => parseAtom t

/-- Parse one expression statement; the fuel bound exceeds any nesting depth a
string of that length can have. -/
def parseExpr (s : Str) : Option Expr := parseExprF (s.length + 1) s

/-- Split a script into its statements: `;` and newlines at top level. -/
def splitStmts (code : Str) : List Str :=
  ((splitAllTop (fun c => c = ';' || c = '\n') code 0 none []).map jsTrim).filter
    (fun s => s ≠ [])

/-- Compile a whole script up front, as `new vm.Script(code)` does: a syntax
error anywhere prevents any statement from running. -/
def parseProgram (code : Str) : Option (List Expr) :=
  (splitStmts code).mapM parseExpr

/-- Console formatting hook: one line from a level tag and argument values. -/
abbrev ConsoleFmt := Str → List JsVal → Str

/-- Interpreter state: the sandbox global object and the console buffer the
scope's console stubs push into. -/
structure EvalState where
  env : Env
  buffer : List Str
  deriving Repr, DecidableEq

def evalExpr (fmt : ConsoleFmt) : Expr → EvalState → Except JsErr (JsVal × EvalState)
  | .lit v, st => .ok (v, st)
  | .ident n, st =>
      match envLookup st.env n with
      | some v => .ok (v, st)
      | none => .error (.refErr n)
  | .typeofE n, st => .ok (.str (typeofName st.env n), st)
  | .assign n e, st =>
      match evalExpr fmt e st with
      | .ok (v, st') => .ok (v, { st' with env := envSet n v st'.env })
      | .error err => .error err
  | .add l r, st =>
      match evalExpr fmt l st with
      | .ok (v1, st1) =>
          match evalExpr fmt r st1 with
          | .ok (v2, st2) =>
              match v1, v2 with
              | .num a, .num b => .ok (.num (a + b), st2)
              | _, _ => .ok (.str (jsToString v1 ++ jsToString v2), st2)
          | .error err => .error err
      | .error err => .error err
  | .logCall level none, st =>
      .ok (.undef, { st with buffer := st.buffer ++ [fmt level []] })
  | .logCall level (some e), st =>
      match evalExpr fmt e st with
      | .ok (v, st') =>
          .ok (.undef, { st' with buffer := st'.buffer ++ [fmt level [v]] })
      | .error err => .error err

/-- Run the parsed statements in order; the script's completion value is the
value of the last statement executed.  Side effects performed before a thrown
error persist. -/
def evalStmts (fmt : ConsoleFmt) : List Expr → EvalState → JsVal →
    Except JsErr JsVal × EvalState
  | [], st, acc => (.ok acc, st)
  | e :: es, st, _ =>
      match evalExpr fmt e st with
      | .ok (v, st') => evalStmts fmt es st' v
      | .error err => (.error err, st)

/-- Compile and run a script against a sandbox state, as
`script.runInContext(ctx)` does for the fragment the engine generates. -/
def runProgram (fmt : ConsoleFmt) (code : Str) (st : EvalState) :
    Except JsErr JsVal × EvalState :=
  match parseProgram code with
  | none => (.error (.synErr ("Unexpected token").toList), st)
  | some es => evalStmts fmt es st .undef

end MicroJs

/-!
## The in-process evaluation engine of `src/core/models/EvalResult.ts`

`ExecutionEngine` there keeps one `ExecutionContext` per document id; a
context owns the vm sandbox, a `variables` registry of names already declared,
and the console buffer (`bufferHolder.buffer`) the sandbox's console stubs
push into.  Only the JavaScript path is embedded: the TypeScript branch
(transpilation and the `__quokka_result` capture) is dead on the inputs the
claims concern.
-/

namespace EngineModels

open MicroJs

/-- One execution context (`ExecutionContext` of EvalResult.ts). -/
structure Context where
  id : Str
  vars : List Str
  env : Env
  buffer : List Str
  deriving Repr, DecidableEq

/-- `ExecutionResult` of EvalResult.ts.  `executionTime` (wall clock) is not
modelled. -/
structure ExecutionResult where
  value : JsVal
  type : Str
  isError : Bool
  errMsg : Option Str
  consoleOutput : List Str
  covered : Bool
  deriving Repr, DecidableEq

/-- `formatConsoleOutput`: argument rendering inside a console line. -/
def formatArg : JsVal → Str
  | .str s => s
  | .null => ("null").toList
  | .hostObj _ => ("\x7b\x7d").toList
  | v => jsToString v

/-- `formatConsoleOutput(type, args)` as the console stubs call it. -/
def engineFmt : ConsoleFmt := fun level args =>
  ("[").toList ++ level.map Char.toUpper ++ ("] ").toList ++
    List.intercalate (" ").toList (args.map formatArg)

/-- The allow-list sandbox object built by `createContext`, in source order.
The dangerous names are not omitted: they are explicit properties bound to
`undefined`. -/
def createContextEnv : Env :=
  [(("console").toList, .hostObj ("console").toList),
   (("setTimeout").toList, .hostObj ("setTimeout").toList),
   (("setInterval").toList, .hostObj ("setInterval").toList),
   (("clearTimeout").toList, .hostObj ("clearTimeout").toList),
   (("clearInterval").toList, .hostObj ("clearInterval").toList),
   (("Promise").toList, .hostObj ("Promise").toList),
   (("Array").toList, .hostObj ("Array").toList),
   (("Object").toList, .hostObj ("Object").toList),
   (("String").toList, .hostObj ("String").toList),
   (("Number").toList, .hostObj ("Number").toList),
   (("Boolean").toList, .hostObj ("Boolean").toList),
   (("Date").toList, .hostObj ("Date").toList),
   (("RegExp").toList, .hostObj ("RegExp").toList),
   (("JSON").toList, .hostObj ("JSON").toList),
   (("Math").toList, .hostObj ("Math").toList),
   (("Map").toList, .hostObj ("Map").toList),
   (("Set").toList, .hostObj ("Set").toList),
   (("WeakMap").toList, .hostObj ("WeakMap").toList),
   (("WeakSet").toList, .hostObj ("WeakSet").toList),
   (("Error").toList, .hostObj ("Error").toList),
   (("TypeError").toList, .hostObj ("TypeError").toList),
   (("ReferenceError").toList, .hostObj ("ReferenceError").toList),
   (("SyntaxError").toList, .hostObj ("SyntaxError").toList),
   (("process").toList, .undef),
   (("require").toList, .undef),
   (("module").toList, .undef),
   (("exports").toList, .undef),
   (("global").toList, .undef),
   (("__dirname").toList, .undef),
   (("__filename").toList, .undef),
   (("__quokka_result").toList, .undef)]

/-- `createContext(id, language)`: fresh sandbox, empty registry and buffer. -/
def createContext (id : Str) : Context :=
  { id, vars := [], env := createContextEnv, buffer := [] }

/-- The declaration regex
`^\s*(const|let|var)\s+([a-zA-Z_$][a-zA-Z0-9_$]*)\s*=\s*([\s\S]+)$`:
keyword, bound identifier, initializer text. -/
def matchDeclaration (s : Str) : Option (Str × Str × Str) :=
  let t := s.dropWhile isWs
  let kw? :=
    match t.dropPrefix? ("const").toList with
    | some r => some (("const").toList, r)
    | none =>
        match t.dropPrefix? ("let").toList with
        | some r => some (("let").toList, r)
        | none =>
            match t.dropPrefix? ("var").toList with
            | some r => some (("var").toList, r)
            | none => none
  match kw? with
  | none => none
  | some (kw, rest) =>
      match rest with
      | c :: _ =>
          if isWs c then
            let afterWs := rest.dropWhile isWs
            match afterWs with
            | d :: _ =>
                if isIdStart d then
                  let name := afterWs.takeWhile isIdChar
                  let tail := (afterWs.drop name.length).dropWhile isWs
                  match tail with
                  | '=' :: afterEq =>
                      let value := afterEq.dropWhile isWs
                      if value = [] then none else some (kw, name, value)
                  | _ => none
                else none
            | [] => none
          else none
      | [] => none

/-- `normalizeDeclarations(code, context)`: a first-time single declaration is
rewritten to a global assignment followed by `undefined` and the name is
registered in `context.variables` immediately; a known name is rewritten to a
plain assignment. -/
def normalizeDeclarations (code : Str) (ctx : Context) : Str × Context :=
  match matchDeclaration (jsTrim code) with
  | some (_, varName, value) =>
      if ctx.vars.contains varName || envHasKey ctx.env varName then
        (varName ++ (" = ").toList ++ value, ctx)
      else
        (varName ++ (" = ").toList ++ value ++ ("; undefined").toList,
         { ctx with vars := varName :: ctx.vars })
  | none => (code, ctx)

/-- The keyword prefixes excluded by the last-line re-evaluation check:
`^(const|let|var|function|class|interface|export|import|return|throw)\b`. -/
def lastLineKeywords : List Str :=
  [("const").toList, ("let").toList, ("var").toList, ("function").toList,
   ("class").toList, ("interface").toList, ("export").toList,
   ("import").toList, ("return").toList, ("throw").toList]

def isWordChar (c : Char) : Bool :=
  (c ≥ 'a' && c ≤ 'z') || (c ≥ 'A' && c ≤ 'Z') || (c ≥ '0' && c ≤ '9') || c = '_'

/-- Does the line start with one of the keywords at a word boundary? -/
def startsWithKeyword (line : Str) : Bool :=
  lastLineKeywords.any fun kw =>
    match line.dropPrefix? kw with
    | some [] => true
    | some (c :: _) => !isWordChar c
    | none => false

/-- `last.replace(/;\s*$/, '')` on an already trimmed line. -/
def stripTrailingSemi (l : Str) : Str :=
  match l.reverse with
  | ';' :: r => r.reverse
  | _ => l

/-- The last non-empty trimmed line of the source, when it does not begin with
a declaration or control keyword (the re-evaluation candidate). -/
def lastExprLine (code : Str) : Option Str :=
  let lines := ((splitAllTop (fun c => c = '\n') code 0 none []).map jsTrim).filter
    (fun s => s ≠ [])
  match lines.getLast? with
  | some l => if !startsWithKeyword l then some (stripTrailingSemi l) else none
  | none => none

/-- `/\bfunction\b|=>/.test(code)` for the `covered` flag. -/
def isInfixCh (pat s : Str) : Bool :=
  (List.range (s.length + 1)).any (fun i => pat.isPrefixOf (s.drop i))

def coveredTest (code : Str) : Bool :=
  isInfixCh ("function").toList code || isInfixCh ("=>").toList code

/-- `getValueType(value)`. -/
def getValueType : JsVal → Str
  | .null => ("null").toList
  | .undef => ("undefined").toList
  | .num _ => ("number").toList
  | .str _ => ("string").toList
  | .bool _ => ("boolean").toList
  | .hostObj _ => ("object").toList

/-- The context with its console buffer cleared, as `execute` does first
(`bufferHolder.buffer.length = 0`). -/
def clearBuf (ctx : Context) : Context := { ctx with buffer := [] }

/-- The first execution pass of `execute`: clear the buffer, normalize
declarations (which may register a name), run the normalized code. -/
def firstPass (ctx : Context) (code : Str) :
    (Except JsErr JsVal × EvalState) × Context :=
  let ctx0 := clearBuf ctx
  let norm := normalizeDeclarations code ctx0
  (runProgram engineFmt norm.1 ⟨norm.2.env, norm.2.buffer⟩, norm.2)

/-- The body of `ExecutionEngine.execute` for one resolved context: first
pass, then — when the completion value is `undefined` and the source's last
non-empty line is not a declaration/control statement — a second evaluation of
that last line in the same context, whose value (when it succeeds) becomes the
reported value.  All errors of the first pass are caught and returned as an
error-tagged result. -/
def executeCtx (ctx : Context) (code : Str) : ExecutionResult × Context :=
  let fp := firstPass ctx code
  let ctx1 := fp.2
  match fp.1 with
  | (.error e, st1) =>
      ({ value := .undef, type := ("error").toList, isError := true,
         errMsg := some e.message, consoleOutput := st1.buffer, covered := false },
       { ctx1 with env := st1.env, buffer := st1.buffer })
  | (.ok v, st1) =>
      let second :=
        if v = .undef then
          match lastExprLine code with
          | some l =>
              match runProgram engineFmt l st1 with
              | (.ok w, st2) => (w, st2)
              | (.error _, st2) => (.undef, st2)
          | none => (v, st1)
        else (v, st1)
      ({ value := second.1, type := getValueType second.1, isError := false,
         errMsg := none, consoleOutput := second.2.buffer,
         covered := coveredTest code },
       { ctx1 with env := second.2.env, buffer := second.2.buffer })

/-- The engine's context registry, keyed by document id. -/
abbrev Registry := List (Str × Context)

def regLookup (r : Registry) (id : Str) : Option Context :=
  match r with
  | [] => none
  | (k, v) :: rest => if k = id then some v else regLookup rest id

def regSet (id : Str) (ctx : Context) (r : Registry) : Registry := (id, ctx) :: r

/-- `execute(contextId, code)`: a missing context is created automatically;
no failure path escapes to the caller. -/
def execute (reg : Registry) (contextId code : Str) :
    ExecutionResult × Registry :=
  let ctx := (regLookup reg contextId).getD (createContext contextId)
  let res := executeCtx ctx code
  (res.1, regSet contextId res.2 reg)

/-- `clearContext(contextId)` replaces a present context by a freshly created
one (registry entry kept, declared names and scope rebuilt). -/
def clearContext (reg : Registry) (contextId : Str) : Registry :=
  match regLookup reg contextId with
  | some _ => regSet contextId (createContext contextId) reg
  | none => reg

end EngineModels

/-!
## The engine of `src/core/ExecutionEngine.ts` (first definition in the file)

Same shape, with three differences that matter to the claims: `execute` throws
`Context <id> not found` to its caller when the context id is unknown (the
throw happens before the try/catch), `normalizeDeclarations` leaves a
first-time declaration untouched (registering the name only), and there is no
last-line re-evaluation.
-/

namespace EngineCore

open MicroJs EngineModels

/-- `ExecutionResult` of ExecutionEngine.ts (no `covered` field). -/
structure CoreResult where
  value : JsVal
  type : Str
  isError : Bool
  errMsg : Option Str
  consoleOutput : List Str
  deriving Repr, DecidableEq

/-- The core variant's declaration regex uses `(.+)$` rather than
`([\s\S]+)$`, so the initializer may not span lines. -/
def matchDeclarationCore (s : Str) : Option (Str × Str × Str) :=
  match EngineModels.matchDeclaration s with
  | some (kw, name, value) =>
      if value.all (fun c => c ≠ '\n') then some (kw, name, value) else none
  | none => none

/-- `normalizeDeclarations` of ExecutionEngine.ts: a known name becomes a
plain assignment; a first-time declaration is registered and the code is
returned unchanged. -/
def normalizeDeclarationsCore (code : Str) (ctx : Context) : Str × Context :=
  match matchDeclarationCore (jsTrim code) with
  | some (_, varName, value) =>
      if ctx.vars.contains varName || envHasKey ctx.env varName then
        (varName ++ (" = ").toList ++ value, ctx)
      else
        (code, { ctx with vars := varName :: ctx.vars })
  | none => (code, ctx)

/-- The try-block body of the core `execute` for a resolved context: clear the
buffer, normalize, run; every execution error is caught and converted to an
error-tagged result. -/
def executeCtxCore (ctx : Context) (code : Str) : CoreResult × Context :=
  let ctx0 := clearBuf ctx
  let norm := normalizeDeclarationsCore code ctx0
  match runProgram engineFmt norm.1 ⟨norm.2.env, norm.2.buffer⟩ with
  | (.error e, st1) =>
      ({ value := .undef, type := ("error").toList, isError := true,
         errMsg := some e.message, consoleOutput := st1.buffer },
       { norm.2 with env := st1.env, buffer := st1.buffer })
  | (.ok v, st1) =>
      ({ value := v, type := getValueType v, isError := false,
         errMsg := none, consoleOutput := st1.buffer },
       { norm.2 with env := st1.env, buffer := st1.buffer })

/-- `execute(contextId, code)` of ExecutionEngine.ts: when the registry has no
context for the id, `throw new Error('Context <id> not found')` escapes to the
caller — modelled as the `Except.error` case.  All other failures are caught
inside and produce an `.ok` error-tagged result. -/
def execute (reg : Registry) (contextId code : Str) :
    Except Str (CoreResult × Registry) :=
  match regLookup reg contextId with
  | none => .error (("Context ").toList ++ contextId ++ (" not found").toList)
  | some ctx =>
      let res := executeCtxCore ctx code
      .ok (res.1, regSet contextId res.2 reg)

end EngineCore

/-!
## The `Sandbox` class of the runtime module (part_004)

A single long-lived vm context with an allow-list of safe intrinsics, the
dangerous names explicitly defined as `undefined` properties, and
`codeGeneration: { strings: false }` disabling `eval`-style string compilation
at the vm level.  `evalExpression` strips the declaration keyword from a
single-variable declaration *before* any membership check, then tries the
input as a parenthesised expression, falling back to an AST declaration check
and finally to statement execution.
-/

namespace Sandbox

open MicroJs

/-- Console stub formatting: `args.map(a => String(a)).join(' ')`. -/
def sandboxFmt : ConsoleFmt := fun _level args =>
  List.intercalate (" ").toList (args.map jsToString)

/-- The safe intrinsics copied onto the context, followed by the
`Object.defineProperties` denial entries (each bound to `undefined`). -/
def sandboxScopeEnv : Env :=
  [(("Math").toList, .hostObj ("Math").toList),
   (("Number").toList, .hostObj ("Number").toList),
   (("String").toList, .hostObj ("String").toList),
   (("Boolean").toList, .hostObj ("Boolean").toList),
   (("Array").toList, .hostObj ("Array").toList),
   (("Object").toList, .hostObj ("Object").toList),
   (("JSON").toList, .hostObj ("JSON").toList),
   (("Date").toList, .hostObj ("Date").toList),
   (("RegExp").toList, .hostObj ("RegExp").toList),
   (("URL").toList, .hostObj ("URL").toList),
   (("BigInt").toList, .hostObj ("BigInt").toList),
   (("Error").toList, .hostObj ("Error").toList),
   (("EvalError").toList, .hostObj ("EvalError").toList),
   (("RangeError").toList, .hostObj ("RangeError").toList),
   (("ReferenceError").toList, .hostObj ("ReferenceError").toList),
   (("SyntaxError").toList, .hostObj ("SyntaxError").toList),
   (("TypeError").toList, .hostObj ("TypeError").toList),
   (("URIError").toList, .hostObj ("URIError").toList),
   (("Map").toList, .hostObj ("Map").toList),
   (("Set").toList, .hostObj ("Set").toList),
   (("WeakMap").toList, .hostObj ("WeakMap").toList),
   (("WeakSet").toList, .hostObj ("WeakSet").toList),
   (("Promise").toList, .hostObj ("Promise").toList),
   (("Proxy").toList, .hostObj ("Proxy").toList),
   (("Reflect").toList, .hostObj ("Reflect").toList),
   (("Intl").toList, .hostObj ("Intl").toList),
   (("console").toList, .hostObj ("console").toList),
   (("process").toList, .undef),
   (("require").toList, .undef),
   (("global").toList, .undef),
   (("module").toList, .undef),
   (("import").toList, .undef),
   (("Buffer").toList, .undef),
   (("eval").toList, .undef),
   (("Function").toList, .undef)]

/-- `codeGeneration: { strings: false }` passed to `vm.createContext`. -/
def codeGenerationStrings : Bool := false

/-- Mutable state of one `Sandbox` instance: the vm context's properties and
the console buffer. -/
structure SState where
  env : Env
  buffer : List Str
  deriving Repr, DecidableEq

/-- A freshly constructed `Sandbox`. -/
def mkSandbox : SState := { env := sandboxScopeEnv, buffer := [] }

/-- `EvalResult` of the runtime module; optional fields are `Option` so that
an absent field is distinguishable from an explicitly set one. -/
structure SEvalResult where
  value : Option JsVal
  isError : Bool
  errMsg : Option Str
  producedFromStatement : Option Bool
  deriving Repr, DecidableEq

/-- The single-declaration regex
`^\s*(?:const|let|var)\s+([A-Za-z_$][\w$]*)\s*=\s*([\s\S]*)$` (the
initializer capture may be empty). -/
def singleDeclMatch (s : Str) : Option (Str × Str) :=
  let t := s.dropWhile isWs
  let rest? :=
    match t.dropPrefix? ("const").toList with
    | some r => some r
    | none =>
        match t.dropPrefix? ("let").toList with
        | some r => some r
        | none => t.dropPrefix? ("var").toList
  match rest? with
  | none => none
  | some rest =>
      match rest with
      | c :: _ =>
          if isWs c then
            let afterWs := rest.dropWhile isWs
            match afterWs with
            | d :: _ =>
                if isIdStart d then
                  let name := afterWs.takeWhile isIdChar
                  let tail := (afterWs.drop name.length).dropWhile isWs
                  match tail with
                  | '=' :: afterEq => some (name, afterEq.dropWhile isWs)
                  | _ => none
                else none
            | [] => none
          else none
      | [] => none

/-- `expr.replace(/^\s*(?:const|let|var)\s+/, '')`. -/
def stripDeclKeyword (s : Str) : Str :=
  let t := s.dropWhile isWs
  let rest? :=
    match t.dropPrefix? ("const").toList with
    | some r => some r
    | none =>
        match t.dropPrefix? ("let").toList with
        | some r => some r
        | none => t.dropPrefix? ("var").toList
  match rest? with
  | some (c :: cs) => if isWs c then (c :: cs).dropWhile isWs else s
  | _ => s

/-- `runScript(code)`: empty or blank code short-circuits to `undefined`;
otherwise compile and run in the context. -/
def runScript (code : Str) (st : SState) : Except JsErr JsVal × SState :=
  if jsTrim code = [] then (.ok .undef, st)
  else
    let r := runProgram sandboxFmt code ⟨st.env, st.buffer⟩
    (r.1, { env := r.2.env, buffer := r.2.buffer })

/-- `read(name)`: direct property access when the value is not `undefined`,
else a guarded `typeof` read that yields `undefined` for unbound names. -/
def readVar (name : Str) (st : SState) : JsVal :=
  match envLookup st.env name with
  | some v => if v = JsVal.undef then JsVal.undef else v
  | none => JsVal.undef

/-- The AST check of the fallback branch: a sole `VariableDeclaration` whose
single declarator has an `Identifier` pattern and an initializer. -/
def acornSingleVarDecl (s : Str) : Option Str :=
  match EngineModels.matchDeclaration s with
  | some (_, name, _) => some name
  | none => none

/-- `Sandbox.evalExpression(expr)`: normalization first (the declaration
keyword of a single-variable declaration-with-initializer is stripped
unconditionally), then the expression attempt on `(expr)`, then — only on a
syntax error — the declaration-via-AST branch and the statement fallback.
The outer try/catch means no exception escapes. -/
def evalExpression (expr : Str) (st : SState) : SEvalResult × SState :=
  if jsTrim expr = [] then
    ({ value := some .undef, isError := false, errMsg := none,
       producedFromStatement := none }, st)
  else
    let expr' :=
      match singleDeclMatch expr with
      | some _ => stripDeclKeyword expr
      | none => expr
    let wrapped := '(' :: (expr' ++ [')'])
    match parseProgram wrapped with
    | some stmts =>
        match evalStmts sandboxFmt stmts ⟨st.env, st.buffer⟩ .undef with
        | (.ok v, st2) =>
            ({ value := some v, isError := false, errMsg := none,
               producedFromStatement := none },
             { env := st2.env, buffer := st2.buffer })
        | (.error e, st2) =>
            ({ value := none, isError := true, errMsg := some e.message,
               producedFromStatement := none },
             { env := st2.env, buffer := st2.buffer })
    | none =>
        -- compilation of `(expr)` threw a SyntaxError
        match acornSingleVarDecl expr' with
        | some varName =>
            match runScript expr' st with
            | (.ok _, st2) =>
                ({ value := some (readVar varName st2), isError := false,
                   errMsg := none, producedFromStatement := none }, st2)
            | (.error e, st2) =>
                ({ value := none, isError := true, errMsg := some e.message,
                   producedFromStatement := none }, st2)
        | none =>
            match runScript expr' st with
            | (.ok _, st2) =>
                ({ value := some .undef, isError := false, errMsg := none,
                   producedFromStatement := some true }, st2)
            | (.error e, st2) =>
                ({ value := none, isError := true, errMsg := some e.message,
                   producedFromStatement := some true }, st2)

/-- `readConsole()` returns a copy of the buffer. -/
def readConsole (st : SState) : List Str := st.buffer

/-- `clearConsole()` empties the buffer in place. -/
def clearConsole (st : SState) : SState := { st with buffer := [] }

end Sandbox

/-!
## The isolation-tier worker (part_010; `src/infra/sandbox/worker.js` copy)

The runnable worker (present in JavaScript and TypeScript form) calls
`createSandbox()` once at module scope — "Create and reuse a single
sandbox/context for the lifetime of the worker so re-evaluations can access
previously-defined variables and functions" — and `vm.createContext` once on
it.  Each `exec` message then clears the shared console buffer in place,
tries the code as a parenthesised expression first, falls back to running it
as a statement when the expression attempt fails, serializes the result, and
replies; the shared context's properties persist from one message to the
next.  (The copy at `src/src/infra/sandbox/worker.js` instead carries one
unbalanced closing parenthesis per console stub — a syntax error — and is not
loadable; the embedding follows the parseable worker.)
-/

namespace Worker

open MicroJs

/-- Console stub formatting:
`args.map(a => typeof a === 'string' ? a : util.inspect(a)).join(' ')`. -/
def workerFmt : ConsoleFmt := fun _level args =>
  List.intercalate (" ").toList (args.map jsToString)

/-- The sandbox object `createSandbox` builds, created once at module
scope. -/
def createSandboxEnv : Env :=
  [(("console").toList, .hostObj ("console").toList),
   (("Math").toList, .hostObj ("Math").toList),
   (("Number").toList, .hostObj ("Number").toList),
   (("String").toList, .hostObj ("String").toList),
   (("Boolean").toList, .hostObj ("Boolean").toList),
   (("Array").toList, .hostObj ("Array").toList),
   (("Object").toList, .hostObj ("Object").toList),
   (("JSON").toList, .hostObj ("JSON").toList),
   (("Date").toList, .hostObj ("Date").toList),
   (("RegExp").toList, .hostObj ("RegExp").toList)]

/-- The worker's module-scope mutable state: the shared vm context's
properties and the shared console buffer. -/
structure WState where
  env : Env
  buffer : List Str
  deriving Repr, DecidableEq

/-- The worker's state right after module load. -/
def initialWorker : WState := { env := createSandboxEnv, buffer := [] }

/-- The worker's reply to one `exec` message. -/
structure Reply where
  ok : Bool
  result : Option JsVal
  errMsg : Option Str
  console : List Str
  deriving Repr, DecidableEq

/-- `JSON.parse(JSON.stringify(result))` with the `util.inspect` fallback:
identity on the serializable primitives the model covers;
`JSON.stringify(undefined)` is `undefined`, whose parse throws, so an
`undefined` result degrades to the inspected string `"undefined"`. -/
def serializeResult : JsVal → JsVal
  | .undef => .str ("undefined").toList
  | v => v

/-- The handler body for one `{action: 'exec'}` message against the shared
context: clear the shared buffer, try `(${code})` as an expression, on any
failure of that attempt (compile or run, with its side effects kept) run the
code as a statement, and reply; the updated shared state carries over to the
next message. -/
def handleExec (code : Str) (st : WState) : Reply × WState :=
  let st0 : EvalState := ⟨st.env, []⟩
  let attempt :=
    match parseProgram ('(' :: (code ++ [')'])) with
    | some es =>
        match evalStmts workerFmt es st0 .undef with
        | (.ok v, st1) => ((Except.ok v : Except JsErr JsVal), st1)
        | (.error _, st1) => runProgram workerFmt code st1
    | none => runProgram workerFmt code st0
  match attempt with
  | (.ok v, st1) =>
      ({ ok := true, result := some (serializeResult v), errMsg := none,
         console := st1.buffer }, ⟨st1.env, st1.buffer⟩)
  | (.error e, st1) =>
      ({ ok := false, result := none, errMsg := some e.message,
         console := st1.buffer }, ⟨st1.env, st1.buffer⟩)

/-- The worker process serving a sequence of exec messages over its lifetime:
one long-lived context threads through all of them. -/
def serve : List Str → WState → List Reply × WState
  | [], st => ([], st)
  | m :: rest, st =>
      ((handleExec m st).1 :: (serve rest (handleExec m st).2).1,
       (serve rest (handleExec m st).2).2)

end Worker

/-!
## The `SandboxManager` proxy (part_011)

The manager is embedded as an explicit state machine over the events its
handlers react to: an execute request (which lazily spawns the worker and
registers a pending entry under a fresh correlation id with deadline
`timeout + 200`), an incoming reply message, the per-request timeout firing,
the worker process's exit event, and disposal.  Each pending promise settles
at most once; `resolved` records the first settlement of each id.
-/

namespace Manager

open MicroJs

inductive ProcState where
  | noProc
  | live
  | killed
  deriving Repr, DecidableEq

/-- The shape of an `ExecResult` settlement as the caller observes it. -/
structure MResult where
  ok : Bool
  errMsg : Option Str
  deriving Repr, DecidableEq

def timeoutRes : MResult := { ok := false, errMsg := some ("timeout").toList }

def workerExitedRes : MResult :=
  { ok := false, errMsg := some ("worker exited").toList }

/-- Manager state: the child-process handle, the pending map (correlation id
to its timer deadline), the id counter, and the settlement log. -/
structure MState where
  proc : ProcState
  pending : List (Nat × Nat)
  counter : Nat
  resolved : List (Nat × MResult)
  deriving Repr, DecidableEq

def initial : MState := { proc := .noProc, pending := [], counter := 1, resolved := [] }

def lookupRes (r : List (Nat × MResult)) (id : Nat) : Option MResult :=
  match r with
  | [] => none
  | (k, v) :: rest => if k = id then some v else lookupRes rest id

/-- A promise settles only once; later settlements of the same id are
no-ops. -/
def resolveOnce (id : Nat) (res : MResult) (r : List (Nat × MResult)) :
    List (Nat × MResult) :=
  if (lookupRes r id).isSome then r else (id, res) :: r

def pendingHas (p : List (Nat × Nat)) (id : Nat) : Bool :=
  p.any (fun q => q.1 = id)

/-- `start()`: respawn unless a live, unkilled process exists. -/
def start (s : MState) : MState :=
  match s.proc with
  | .live => s
  | _ => { s with proc := .live }

/-- The registration part of `execute(code, timeout)`: lazy start, fresh id,
pending entry with deadline `timeout + 200`. -/
def execRegister (s : MState) (timeout : Nat) : MState × Nat :=
  let s1 := start s
  let id := s1.counter
  ({ s1 with pending := (id, timeout + 200) :: s1.pending, counter := id + 1 }, id)

/-- The `message` handler: a matching pending entry settles the promise and is
deleted from the map; unknown ids are ignored. -/
def onMessage (s : MState) (id : Nat) (res : MResult) : MState :=
  if pendingHas s.pending id then
    { s with resolved := resolveOnce id res s.resolved,
             pending := s.pending.filter (fun q => q.1 ≠ id) }
  else s

/-- The per-request timer firing: kill the worker and settle the promise as a
timeout — the pending map is not touched here. -/
def onTimeoutFire (s : MState) (id : Nat) : MState :=
  { s with proc := (if s.proc = .live then .killed else s.proc),
           resolved := resolveOnce id timeoutRes s.resolved }

/-- The `exit` handler: settle every pending entry as `worker exited`, empty
the map, drop the process handle. -/
def onExit (s : MState) : MState :=
  { s with proc := .noProc,
           resolved := s.pending.foldl (fun r q => resolveOnce q.1 workerExitedRes r) s.resolved,
           pending := [] }

/-- `dispose()`: kill the process and clear the pending map without settling
anything. -/
def dispose (s : MState) : MState :=
  { s with proc := .noProc, pending := [] }

end Manager

/-!
## The value formatter (part_012): `replacerCircular` and `formatValue`

`formatValue` renders plain objects through `JSON.stringify(value,
replacerCircular(), 2)`.  The replacer keeps one `WeakSet` for the whole pass:
the first visit of an object adds it and serializes it normally, any later
visit of the same object yields the string `'[Circular]'` instead of
recursing.  Object graphs are modelled as a finite map from node ids to field
lists; a `ref` value points at a node.  The serializer is written with an
explicit fuel argument consumed only when entering an unvisited object, and a
sufficiency theorem shows the fuel `number of nodes + 1` never runs out — the
model's form of "cycle detection terminates".  A `BigInt` field makes
`JSON.stringify` throw, which `formatValue` catches, degrading to the
`[Object]` placeholder.  String escaping inside `JSON.stringify` is elided:
the modelled strings contain no characters needing escapes.
-/

namespace Fmt

open MicroJs

/-- Values as the formatter distinguishes them. -/
inductive FVal where
  | fundef
  | fnull
  | fbool (b : Bool)
  | fnum (n : Int)
  | fstr (s : Str)
  | ffun
  | fbig (n : Int)
  | ref (id : Nat)
  deriving Repr, DecidableEq

/-- An object graph: node id to its fields, in property order. -/
structure FGraph where
  nodes : List (Nat × List (Str × FVal))
  deriving Repr, DecidableEq

def nodeLookupL (ns : List (Nat × List (Str × FVal))) (id : Nat) :
    Option (List (Str × FVal)) :=
  match ns with
  | [] => none
  | (k, v) :: rest => if k = id then some v else nodeLookupL rest id

def nodeLookup (g : FGraph) (id : Nat) : Option (List (Str × FVal)) :=
  nodeLookupL g.nodes id

def keys (g : FGraph) : List Nat := (g.nodes.map Prod.fst).dedup

def jsonQuote (s : Str) : Str := dquoteCh :: (s ++ [dquoteCh])

def circularMarker : Str := ("[Circular]").toList

/-- Serialization outcome for one value: fuel exhausted (never reached with
sufficient fuel), an exception thrown by `JSON.stringify`, or a result —
`none` meaning the property is omitted (`undefined`/function values) —
together with the updated `WeakSet`. -/
inductive SRes where
  | fuelOut
  | thrown (msg : Str)
  | done (out : Option Str) (seen : List Nat)
  deriving Repr, DecidableEq

/-- Serialization outcome for a field list: the rendered members plus the
updated `WeakSet`. -/
inductive FRes where
  | fuelOut
  | thrown (msg : Str)
  | done (parts : List Str) (seen : List Nat)
  deriving Repr, DecidableEq

/-- Serialize the fields of one object in order, threading the `WeakSet`
through the member loop; properties whose serialized value is `undefined` are
omitted.  `recur` is the serializer for one member value. -/
def serFieldsAux (recur : List Nat → Str → FVal → SRes) :
    List Nat → Str → List (Str × FVal) → FRes
  | seen, _, [] => .done [] seen
  | seen, indent, (k, v) :: tl =>
      match recur seen indent v with
      | .fuelOut => .fuelOut
      | .thrown m => .thrown m
      | .done out seen' =>
          match serFieldsAux recur seen' indent tl with
          | .fuelOut => .fuelOut
          | .thrown m => .thrown m
          | .done parts seen'' =>
              match out with
              | none => .done parts seen''
              | some s => .done ((jsonQuote k ++ (": ").toList ++ s) :: parts) seen''

/-- `SerializeJSONProperty` with `replacerCircular`'s `WeakSet` threaded
through: an already-seen object becomes the `'[Circular]'` string, an unseen
one is added and serialized structurally with the two-space gap.  The fuel is
consumed once per object entered. -/
def serVal (g : FGraph) : Nat → List Nat → Str → FVal → SRes
  | 0, _, _, _ => .fuelOut
  | fuel + 1, seen, indent, v =>
      match v with
      | .fundef => .done none seen
      | .ffun => .done none seen
      | .fnull => .done (some ("null").toList) seen
      | .fbool b => .done (some ((if b then "true" else "false")).toList) seen
      | .fnum n => .done (some (jsToString (.num n))) seen
      | .fstr s => .done (some (jsonQuote s)) seen
      | .fbig _ => .thrown ("Do not know how to serialize a BigInt").toList
      | .ref id =>
          if seen.contains id then .done (some (jsonQuote circularMarker)) seen
          else
            match nodeLookup g id with
            | none => .done (some ("\x7b\x7d").toList) (id :: seen)
            | some fields =>
                let indent2 := indent ++ ("  ").toList
                match serFieldsAux (serVal g fuel) (id :: seen) indent2 fields with
                | .fuelOut => .fuelOut
                | .thrown m => .thrown m
                | .done parts seen' =>
                    if parts = [] then .done (some ("\x7b\x7d").toList) seen'
                    else
                      .done (some (("\x7b\n").toList ++ indent2 ++
                        List.intercalate ((",\n").toList ++ indent2) parts ++
                        ("\n").toList ++ indent ++ ("\x7d").toList)) seen'

/-- The fuel `JSON.stringify` is modelled with: one unit per object node plus
one. -/
def stdFuel (g : FGraph) : Nat := (keys g).length + 1

/-- The number of object nodes the `WeakSet` has not yet recorded (the
serializer's fuel is measured against this). -/
def unvisitedCard (g : FGraph) (seen : List Nat) : Nat :=
  ((keys g).filter (fun k => !(seen.contains k))).length

/-- `JSON.stringify(value, replacerCircular(), 2)`: `.error` is a thrown
exception, `.ok none` the undefined result. -/
def jsonStringify (g : FGraph) (v : FVal) : Except Str (Option Str) :=
  match serVal g (stdFuel g) [] [] v with
  | .fuelOut => .error ("fuel").toList
  | .thrown m => .error m
  | .done out _ => .ok out

/-- `formatValue(value, maxLength)` from part_012 (the `replacerCircular`
variant). -/
def formatValue (g : FGraph) (v : FVal) (maxLength : Nat) : Str :=
  match v with
  | .fnull => ("null").toList
  | .fundef => ("undefined").toList
  | .fstr s =>
      let sv := jsonQuote s
      if sv.length > maxLength then sv.take maxLength ++ ("...\"").toList
      else sv
  | .ffun => ("[Function]").toList
  | .ref _ =>
      match jsonStringify g v with
      | .ok (some j) =>
          if j.length > maxLength then j.take maxLength ++ ("...").toList else j
      | .ok none => ("[Object]").toList
      | .error _ => ("[Object]").toList
  | .fbool b => ((if b then "true" else "false")).toList
  | .fnum n => jsToString (.num n)
  | .fbig n => jsToString (.num n)

/-- Occurrence count of a pattern in a string (used to state "exactly one
`[Circular]` marker"). -/
def countOccur (pat s : Str) : Nat :=
  ((List.range (s.length + 1)).filter (fun i => pat.isPrefixOf (s.drop i))).length

end Fmt

/-!
## Supporting lemmas
-/

open MicroJs EngineModels

/-- `normalizeDeclarations` on a first-time declaration: rewrite to
`name = value; undefined` and register the name. -/
theorem normalize_new (code : Str) (ctx : Context) (kw n v : Str)
    (hm : matchDeclaration (jsTrim code) = some (kw, n, v))
    (h1 : ctx.vars.contains n = false) (h2 : envHasKey ctx.env n = false) :
    normalizeDeclarations code ctx =
      (n ++ (" = ").toList ++ v ++ ("; undefined").toList,
       { ctx with vars := n :: ctx.vars }) := by
  unfold normalizeDeclarations
  rw [hm]
  have h1' : n ∉ ctx.vars := by simpa using h1
  simp [h1', h2]

/-- `normalizeDeclarations` on a redeclaration: rewrite to a plain
assignment. -/
theorem normalize_known (code : Str) (ctx : Context) (kw n v : Str)
    (hm : matchDeclaration (jsTrim code) = some (kw, n, v))
    (h1 : ctx.vars.contains n = true) :
    normalizeDeclarations code ctx = (n ++ (" = ").toList ++ v, ctx) := by
  unfold normalizeDeclarations
  rw [hm]
  have h1' : n ∈ ctx.vars := by simpa using h1
  simp [h1']

/-- `normalizeDeclarations` on a non-declaration: unchanged. -/
theorem normalize_none (code : Str) (ctx : Context)
    (hm : matchDeclaration (jsTrim code) = none) :
    normalizeDeclarations code ctx = (code, ctx) := by
  unfold normalizeDeclarations
  rw [hm]

/-- The registry of declared names after `execute` is the one produced by the
normalization step — execution success or failure does not change it. -/
theorem executeCtx_vars (ctx : Context) (code : Str) :
    (executeCtx ctx code).2.vars = (firstPass ctx code).2.vars := by
  simp only [executeCtx]
  split
  · rfl
  · rfl

/-- A settled promise stays settled: `resolveOnce` never overwrites an
existing settlement. -/
theorem lookupRes_resolveOnce_some (r : List (Nat × Manager.MResult))
    (id i : Nat) (res x : Manager.MResult)
    (h : Manager.lookupRes r id = some x) :
    Manager.lookupRes (Manager.resolveOnce i res r) id = some x := by
  unfold Manager.resolveOnce
  by_cases hi : (Manager.lookupRes r i).isSome
  · simp [hi, h]
  · have hne : i ≠ id := by
      intro e
      subst e
      rw [h] at hi
      simp at hi
    simp only [hi, Bool.false_eq_true, if_neg, ite_false]
    simp [Manager.lookupRes, hne, h]

/-- An unsettled promise settles when `resolveOnce` targets it. -/
theorem lookupRes_resolveOnce_new (r : List (Nat × Manager.MResult))
    (id : Nat) (res : Manager.MResult)
    (h : Manager.lookupRes r id = none) :
    Manager.lookupRes (Manager.resolveOnce id res r) id = some res := by
  unfold Manager.resolveOnce
  simp [h, Manager.lookupRes]

/-- `resolveOnce` of a different id leaves a lookup unchanged. -/
theorem lookupRes_resolveOnce_other (r : List (Nat × Manager.MResult))
    (id i : Nat) (res : Manager.MResult) (hne : i ≠ id) :
    Manager.lookupRes (Manager.resolveOnce i res r) id =
      Manager.lookupRes r id := by
  unfold Manager.resolveOnce
  by_cases hi : (Manager.lookupRes r i).isSome
  · simp [hi]
  · simp only [hi, Bool.false_eq_true, if_neg, ite_false]
    simp [Manager.lookupRes, hne]

/-- Folding the exit-handler settlement over the pending list preserves
settlements. -/
theorem foldResolve_preserves (pend : List (Nat × Nat))
    (r : List (Nat × Manager.MResult)) (id : Nat) (x : Manager.MResult)
    (h : Manager.lookupRes r id = some x) :
    Manager.lookupRes
      (pend.foldl (fun acc q => Manager.resolveOnce q.1 Manager.workerExitedRes acc) r) id =
      some x := by
  induction pend generalizing r with
  | nil => exact h
  | cons hd tl ih => exact ih _ (lookupRes_resolveOnce_some _ _ _ _ _ h)

/-- Every pending id that was not yet settled is settled as `worker exited`
by the exit handler's loop. -/
theorem foldResolve_mem (pend : List (Nat × Nat))
    (r : List (Nat × Manager.MResult)) (id : Nat) (d : Nat)
    (hm : (id, d) ∈ pend) (h : Manager.lookupRes r id = none) :
    Manager.lookupRes
      (pend.foldl (fun acc q => Manager.resolveOnce q.1 Manager.workerExitedRes acc) r) id =
      some Manager.workerExitedRes := by
  induction pend generalizing r with
  | nil => cases hm
  | cons hd tl ih =>
    rw [List.foldl_cons]
    rcases List.mem_cons.1 hm with he | ht
    · subst he
      exact foldResolve_preserves tl _ id _ (lookupRes_resolveOnce_new r id _ h)
    · by_cases hi : hd.1 = id
      · rw [hi]
        exact foldResolve_preserves tl _ id _ (lookupRes_resolveOnce_new r id _ h)
      · exact ih _ ht (by rw [lookupRes_resolveOnce_other r id hd.1 _ hi]; exact h)

/-- The member loop only ever grows the `WeakSet` (given that the value
serializer does). -/
theorem serFieldsAux_mono (recur : List Nat → Str → Fmt.FVal → Fmt.SRes)
    (hrec : ∀ s ind v out s', recur s ind v = .done out s' → ∀ x ∈ s, x ∈ s') :
    ∀ (fs : List (Str × Fmt.FVal)) (seen : List Nat) (ind : Str)
      (parts : List Str) (seen' : List Nat),
      Fmt.serFieldsAux recur seen ind fs = .done parts seen' →
      ∀ x ∈ seen, x ∈ seen' := by
  intro fs
  induction fs with
  | nil =>
      intro seen ind parts seen' h x hx
      simp only [Fmt.serFieldsAux] at h
      cases h
      exact hx
  | cons hd tl ih =>
      intro seen ind parts seen' h x hx
      obtain ⟨k, v⟩ := hd
      simp only [Fmt.serFieldsAux] at h
      cases hr : recur seen ind v with
      | fuelOut => rw [hr] at h; cases h
      | thrown m => rw [hr] at h; cases h
      | done out s1 =>
          rw [hr] at h
          dsimp only at h
          cases hf : Fmt.serFieldsAux recur s1 ind tl with
          | fuelOut => rw [hf] at h; cases h
          | thrown m => rw [hf] at h; cases h
          | done parts2 s2 =>
              rw [hf] at h
              have hx1 : x ∈ s1 := hrec seen ind v out s1 hr x hx
              have hx2 : x ∈ s2 := ih s1 ind parts2 s2 hf x hx1
              cases out with
              | none => cases h; exact hx2
              | some s => cases h; exact hx2

/-- The serializer only ever grows the `WeakSet`. -/
theorem serVal_mono (g : Fmt.FGraph) :
    ∀ (fuel : Nat) (seen : List Nat) (ind : Str) (v : Fmt.FVal)
      (out : Option Str) (seen' : List Nat),
      Fmt.serVal g fuel seen ind v = .done out seen' → ∀ x ∈ seen, x ∈ seen' := by
  intro fuel
  induction fuel with
  | zero =>
      intro seen ind v out seen' h
      simp [Fmt.serVal] at h
  | succ n ih =>
      intro seen ind v out seen' h x hx
      cases v with
      | fundef => cases h; exact hx
      | ffun => cases h; exact hx
      | fnull => cases h; exact hx
      | fbool b => cases h; exact hx
      | fnum m => cases h; exact hx
      | fstr s => cases h; exact hx
      | fbig m => cases h
      | ref id =>
          simp only [Fmt.serVal] at h
          by_cases hc : seen.contains id
          · rw [if_pos hc] at h
            cases h
            exact hx
          · rw [if_neg hc] at h
            cases hn : Fmt.nodeLookup g id with
            | none =>
                rw [hn] at h
                cases h
                exact List.mem_cons_of_mem _ hx
            | some fields =>
                rw [hn] at h
                dsimp only at h
                cases hf : Fmt.serFieldsAux (Fmt.serVal g n) (id :: seen)
                    (ind ++ ("  ").toList) fields with
                | fuelOut => rw [hf] at h; cases h
                | thrown m => rw [hf] at h; cases h
                | done parts s1 =>
                    rw [hf] at h
                    dsimp only at h
                    have hx1 : x ∈ s1 :=
                      serFieldsAux_mono (Fmt.serVal g n) (ih) fields (id :: seen)
                        (ind ++ ("  ").toList) parts s1 hf x
                        (List.mem_cons_of_mem _ hx)
                    by_cases hp : parts = []
                    · rw [if_pos hp] at h; cases h; exact hx1
                    · rw [if_neg hp] at h; cases h; exact hx1

/-- Growing the `WeakSet` cannot increase the number of unvisited nodes. -/
theorem unvisitedCard_le (g : Fmt.FGraph) (s s' : List Nat)
    (hsub : ∀ x ∈ s, x ∈ s') :
    Fmt.unvisitedCard g s' ≤ Fmt.unvisitedCard g s := by
  unfold Fmt.unvisitedCard
  refine List.Sublist.length_le (List.monotone_filter_right _ ?_)
  intro a ha
  simp only [Bool.not_eq_true'] at ha ⊢
  by_contra hcon
  simp only [Bool.not_eq_false] at hcon
  have : a ∈ s' := by simpa using hsub a (by simpa using hcon)
  simp [this] at ha

/-- Length of a filtered list never exceeds a pointwise-weaker filter. -/
theorem filter_length_le_of_imp (l : List Nat) (p q : Nat → Bool)
    (h : ∀ a, p a = true → q a = true) :
    (l.filter p).length ≤ (l.filter q).length :=
  List.Sublist.length_le (List.monotone_filter_right _ h)

/-- Recording a node that exists and was unvisited strictly decreases the
unvisited count. -/
theorem unvisitedCard_cons_lt (g : Fmt.FGraph) (id : Nat) (seen : List Nat)
    (hid : id ∈ Fmt.keys g) (hns : seen.contains id = false) :
    Fmt.unvisitedCard g (id :: seen) < Fmt.unvisitedCard g seen := by
  unfold Fmt.unvisitedCard
  have himp : ∀ a, (!((id :: seen).contains a)) = true → (!(seen.contains a)) = true := by
    intro a ha
    rw [Bool.not_eq_true'] at ha
    rw [List.contains_cons] at ha
    rw [Bool.not_eq_true']
    exact ((Bool.or_eq_false_iff).1 ha).2
  revert hid
  induction Fmt.keys g with
  | nil =>
      intro hid
      cases hid
  | cons a tl ih =>
      intro hid
      by_cases ha : a = id
      · subst ha
        have hpos : (fun k => !(seen.contains k)) a = true := by
          simp only []
          rw [hns]
          rfl
        have hneg : ¬((fun k => !((a :: seen).contains k)) a = true) := by
          simp only []
          rw [List.contains_cons]
          simp
        rw [@List.filter_cons_of_neg Nat (fun k => !((a :: seen).contains k)) a tl hneg,
            @List.filter_cons_of_pos Nat (fun k => !(seen.contains k)) a tl hpos]
        have hle := filter_length_le_of_imp tl _ _ himp
        simp only [List.length_cons]
        omega
      · rcases List.mem_cons.1 hid with he | ht
        · exact absurd he.symm ha
        · have hba : (a == id) = false := by
            simp [ha]
          have heq : (!((id :: seen).contains a)) = (!(seen.contains a)) := by
            rw [List.contains_cons, hba, Bool.false_or]
          cases hq : (!(seen.contains a)) with
          | true =>
              rw [@List.filter_cons_of_pos Nat (fun k => !((id :: seen).contains k)) a tl
                    (show (fun k => !((id :: seen).contains k)) a = true by simp only []; rw [heq, hq]),
                  @List.filter_cons_of_pos Nat (fun k => !(seen.contains k)) a tl hq]
              simp only [List.length_cons]
              have := ih ht
              omega
          | false =>
              rw [@List.filter_cons_of_neg Nat (fun k => !((id :: seen).contains k)) a tl
                    (show ¬((fun k => !((id :: seen).contains k)) a = true) by simp only []; rw [heq, hq]; simp),
                  @List.filter_cons_of_neg Nat (fun k => !(seen.contains k)) a tl
                    (show ¬((fun k => !(seen.contains k)) a = true) by simp only []; rw [hq]; simp)]
              exact ih ht

/-- A successful node lookup means the id is among the graph's keys. -/
theorem nodeLookupL_mem (ns : List (Nat × List (Str × Fmt.FVal))) (id : Nat)
    (fs : List (Str × Fmt.FVal)) (h : Fmt.nodeLookupL ns id = some fs) :
    id ∈ ns.map Prod.fst := by
  induction ns with
  | nil => exact Option.noConfusion h
  | cons hd tl ih =>
      obtain ⟨k, v⟩ := hd
      simp only [Fmt.nodeLookupL] at h
      by_cases he : k = id
      · rw [List.map_cons]
        exact he ▸ List.mem_cons_self k _
      · rw [if_neg he] at h
        exact List.mem_cons_of_mem _ (ih h)

theorem nodeLookup_mem_keys (g : Fmt.FGraph) (id : Nat)
    (fs : List (Str × Fmt.FVal)) (h : Fmt.nodeLookup g id = some fs) :
    id ∈ Fmt.keys g := by
  unfold Fmt.keys
  exact List.mem_dedup.2 (nodeLookupL_mem g.nodes id fs h)

/-- The member loop cannot run out of fuel if the value serializer cannot on
any state the loop can reach. -/
theorem serFieldsAux_nofuel (g : Fmt.FGraph) (fuel : Nat)
    (hne : ∀ s ind v, Fmt.unvisitedCard g s < fuel →
      Fmt.serVal g fuel s ind v ≠ .fuelOut) :
    ∀ (fs : List (Str × Fmt.FVal)) (seen : List Nat) (ind : Str),
      Fmt.unvisitedCard g seen < fuel →
      Fmt.serFieldsAux (Fmt.serVal g fuel) seen ind fs ≠ .fuelOut := by
  intro fs
  induction fs with
  | nil =>
      intro seen ind hlt h
      simp [Fmt.serFieldsAux] at h
  | cons hd tl ih =>
      intro seen ind hlt h
      obtain ⟨k, v⟩ := hd
      simp only [Fmt.serFieldsAux] at h
      cases hr : Fmt.serVal g fuel seen ind v with
      | fuelOut => exact hne seen ind v hlt hr
      | thrown m => rw [hr] at h; cases h
      | done out s1 =>
          rw [hr] at h
          dsimp only at h
          have hs1 : Fmt.unvisitedCard g s1 < fuel :=
            lt_of_le_of_lt
              (unvisitedCard_le g seen s1 (serVal_mono g fuel seen ind v out s1 hr))
              hlt
          cases hf : Fmt.serFieldsAux (Fmt.serVal g fuel) s1 ind tl with
          | fuelOut => exact ih s1 ind hs1 hf
          | thrown m => rw [hf] at h; cases h
          | done parts s2 =>
              rw [hf] at h
              dsimp only at h
              cases out with
              | none => cases h
              | some s => cases h

/-- Fuel sufficiency: with more fuel than unvisited nodes, the serializer
never runs out — the `WeakSet` cycle detection terminates. -/
theorem serVal_nofuel (g : Fmt.FGraph) :
    ∀ (fuel : Nat) (seen : List Nat) (ind : Str) (v : Fmt.FVal),
      Fmt.unvisitedCard g seen < fuel →
      Fmt.serVal g fuel seen ind v ≠ .fuelOut := by
  intro fuel
  induction fuel with
  | zero => intro seen ind v hlt; omega
  | succ n ih =>
      intro seen ind v hlt h
      cases v with
      | fundef => cases h
      | ffun => cases h
      | fnull => cases h
      | fbool b => cases h
      | fnum m => cases h
      | fstr s => cases h
      | fbig m => cases h
      | ref id =>
          simp only [Fmt.serVal] at h
          by_cases hc : seen.contains id
          · rw [if_pos hc] at h; cases h
          · rw [if_neg hc] at h
            cases hn : Fmt.nodeLookup g id with
            | none => rw [hn] at h; dsimp only at h; cases h
            | some fields =>
                rw [hn] at h
                dsimp only at h
                have hkey : id ∈ Fmt.keys g := nodeLookup_mem_keys g id fields hn
                have hcf : seen.contains id = false := by
                  simpa using hc
                have hlt2 : Fmt.unvisitedCard g (id :: seen) < n := by
                  have := unvisitedCard_cons_lt g id seen hkey hcf
                  omega
                cases hf : Fmt.serFieldsAux (Fmt.serVal g n) (id :: seen)
                    (ind ++ ("  ").toList) fields with
                | fuelOut =>
                    exact serFieldsAux_nofuel g n ih fields (id :: seen)
                      (ind ++ ("  ").toList) hlt2 hf
                | thrown m => rw [hf] at h; cases h
                | done parts s1 =>
                    rw [hf] at h
                    dsimp only at h
                    by_cases hp : parts = []
                    · rw [if_pos hp] at h; cases h
                    · rw [if_neg hp] at h; cases h

/-- The engine evaluating `const a = 5` on a context where `a` is new:
value `undefined`, name registered, `a` bound to 5. -/
theorem engine_declA5_eq (ctx : Context)
    (h1 : ctx.vars.contains (("a").toList) = false)
    (h2 : envHasKey ctx.env (("a").toList) = false) :
    executeCtx ctx (("const a = 5").toList) =
      ({ value := .undef, type := ("undefined").toList, isError := false,
         errMsg := none, consoleOutput := [], covered := false },
       { ctx with buffer := [], vars := ("a").toList :: ctx.vars,
                  env := envSet (("a").toList) (.num 5) ctx.env }) := by
  have h1' : (clearBuf ctx).vars.contains (("a").toList) = false := h1
  have h2' : envHasKey (clearBuf ctx).env (("a").toList) = false := h2
  have hnorm := normalize_new (("const a = 5").toList) (clearBuf ctx)
    (("const").toList) (("a").toList) (("5").toList) rfl h1' h2'
  have hrun : runProgram engineFmt
      ((("a").toList) ++ (" = ").toList ++ (("5").toList) ++ ("; undefined").toList)
      ⟨ctx.env, []⟩ = (.ok .undef, ⟨envSet (("a").toList) (.num 5) ctx.env, []⟩) := rfl
  simp only [executeCtx, firstPass, hnorm]
  rw [show ({ clearBuf ctx with vars := ("a").toList :: (clearBuf ctx).vars } : Context).env = ctx.env from rfl,
      show ({ clearBuf ctx with vars := ("a").toList :: (clearBuf ctx).vars } : Context).buffer = ([] : List Str) from rfl,
      hrun]
  rfl

/-- The engine evaluating `const a = 10` on a context that already declared
`a`: rewritten to a plain assignment whose value is reported. -/
theorem engine_declA10_eq (ctx : Context)
    (h1 : ctx.vars.contains (("a").toList) = true) :
    executeCtx ctx (("const a = 10").toList) =
      ({ value := .num 10, type := ("number").toList, isError := false,
         errMsg := none, consoleOutput := [], covered := false },
       { ctx with buffer := [],
                  env := envSet (("a").toList) (.num 10) ctx.env }) := by
  have h1' : (clearBuf ctx).vars.contains (("a").toList) = true := h1
  have hnorm := normalize_known (("const a = 10").toList) (clearBuf ctx)
    (("const").toList) (("a").toList) (("10").toList) rfl h1'
  have hrun : runProgram engineFmt
      ((("a").toList) ++ (" = ").toList ++ (("10").toList))
      ⟨ctx.env, []⟩ = (.ok (.num 10), ⟨envSet (("a").toList) (.num 10) ctx.env, []⟩) := rfl
  simp only [executeCtx, firstPass, hnorm]
  rw [show (clearBuf ctx).env = ctx.env from rfl,
      show (clearBuf ctx).buffer = ([] : List Str) from rfl, hrun]
  rfl

/-- A program consisting of one identifier completes with that identifier's
binding. -/
theorem runProgram_single_ident (fmt : ConsoleFmt) (code n : Str) (env : Env)
    (v : JsVal) (hpp : parseProgram code = some [.ident n])
    (h : envLookup env n = some v) :
    runProgram fmt code ⟨env, []⟩ = (.ok v, ⟨env, []⟩) := by
  unfold runProgram
  rw [hpp]
  unfold evalStmts
  rw [show evalExpr fmt (.ident n) ⟨env, []⟩ = .ok (v, ⟨env, []⟩) by
    unfold evalExpr; rw [h]]
  rfl

/-- The engine evaluating the bare identifier `a` reports its current
binding. -/
theorem engine_readA_eq (ctx : Context)
    (h : envLookup ctx.env (("a").toList) = some (.num 10)) :
    (executeCtx ctx (("a").toList)).1.value = .num 10 := by
  have hnorm := normalize_none (("a").toList) (clearBuf ctx) rfl
  have hrun := runProgram_single_ident engineFmt (("a").toList) (("a").toList)
    ctx.env (.num 10) rfl h
  simp only [executeCtx, firstPass, hnorm]
  rw [show (clearBuf ctx).env = ctx.env from rfl,
      show (clearBuf ctx).buffer = ([] : List Str) from rfl, hrun]
  rfl

/-!
## Claims
-/

/-- C1 (counterexample): in `Sandbox.evalExpression`, a declaration whose
bound name is new to the context does **not** return value `undefined` with
`producedFromStatement = true`: the declaration keyword is stripped before any
membership check, the rewritten assignment runs as an expression, and the
assigned value is returned with no `producedFromStatement` field at all. -/
theorem c1_counterexample :
    (Sandbox.evalExpression (("const a = 5").toList) Sandbox.mkSandbox).1.value =
      some (JsVal.num 5) ∧
    (Sandbox.evalExpression (("const a = 5").toList) Sandbox.mkSandbox).1.value ≠
      some JsVal.undef ∧
    (Sandbox.evalExpression (("const a = 5").toList) Sandbox.mkSandbox).1.producedFromStatement ≠
      some true := by
  decide

/-- C1 (amended): in the engine, a first-time declaration returns Success with
value `undefined` and registers the name (its result type carries no
`producedFromStatement` field); a redeclaration is rewritten to a plain
assignment and returns the assigned value; a follow-up evaluation of the bare
identifier yields the most recently assigned value; the Sandbox variant
instead returns the assigned value already for the first declaration. -/
theorem c1_theorem (ctx : Context)
    (h1 : ctx.vars.contains (("a").toList) = false)
    (h2 : envHasKey ctx.env (("a").toList) = false) :
    (executeCtx ctx (("const a = 5").toList)).1.value = JsVal.undef ∧
    (executeCtx ctx (("const a = 5").toList)).1.isError = false ∧
    (executeCtx ctx (("const a = 5").toList)).2.vars = ("a").toList :: ctx.vars ∧
    (executeCtx (executeCtx ctx (("const a = 5").toList)).2
      (("const a = 10").toList)).1.value = JsVal.num 10 ∧
    (executeCtx (executeCtx ctx (("const a = 5").toList)).2
      (("const a = 10").toList)).1.isError = false ∧
    (executeCtx (executeCtx (executeCtx ctx (("const a = 5").toList)).2
      (("const a = 10").toList)).2 (("a").toList)).1.value = JsVal.num 10 ∧
    (Sandbox.evalExpression (("const a = 5").toList) Sandbox.mkSandbox).1.value =
      some (JsVal.num 5) := by
  have hs1 := engine_declA5_eq ctx h1 h2
  rw [hs1]
  have hc : ({ ctx with buffer := [], vars := ("a").toList :: ctx.vars, env := envSet (("a").toList) (.num 5) ctx.env } : Context).vars.contains (("a").toList) = true := by simp
  have hs2 := engine_declA10_eq _ hc
  rw [hs2]
  have hl : envLookup (envSet (("a").toList) (.num 10) (envSet (("a").toList) (.num 5) ctx.env)) (("a").toList) = some (JsVal.num 10) := by simp [envSet, envLookup]
  have hs3 := engine_readA_eq ({ ctx with buffer := [], vars := ("a").toList :: ctx.vars, env := envSet (("a").toList) (.num 10) (envSet (("a").toList) (.num 5) ctx.env) } : Context) hl
  exact ⟨rfl, rfl, rfl, rfl, rfl, hs3, rfl⟩

/-- C1 (witness). -/
theorem c1_witness :
    ((createContext (("doc").toList)).vars.contains (("a").toList) = false ∧
     envHasKey (createContext (("doc").toList)).env (("a").toList) = false) ∧
    (executeCtx (createContext (("doc").toList)) (("const a = 5").toList)).1.value =
      JsVal.undef ∧
    (executeCtx (createContext (("doc").toList)) (("const a = 5").toList)).1.isError = false ∧
    (executeCtx (createContext (("doc").toList)) (("const a = 5").toList)).2.vars =
      ("a").toList :: (createContext (("doc").toList)).vars ∧
    (executeCtx (executeCtx (createContext (("doc").toList)) (("const a = 5").toList)).2
      (("const a = 10").toList)).1.value = JsVal.num 10 ∧
    (executeCtx (executeCtx (createContext (("doc").toList)) (("const a = 5").toList)).2
      (("const a = 10").toList)).1.isError = false ∧
    (executeCtx (executeCtx (executeCtx (createContext (("doc").toList))
      (("const a = 5").toList)).2 (("const a = 10").toList)).2
      (("a").toList)).1.value = JsVal.num 10 ∧
    (Sandbox.evalExpression (("const a = 5").toList) Sandbox.mkSandbox).1.value =
      some (JsVal.num 5) :=
  ⟨⟨by decide, by decide⟩, c1_theorem (createContext (("doc").toList)) (by decide) (by decide)⟩

/-- C2: `consoleOutput` reflects only writes performed during this evaluation.
The engine clears the context's buffer as its first step, so the result (and
the whole evaluation) is independent of whatever a previous call left in the
buffer; in particular, evaluating `1+1` after any earlier call — e.g. one that
logged `'x'` — reports an empty `consoleOutput`. -/
theorem c2_theorem :
    (∀ (ctx : Context) (b : List Str) (code : Str),
      executeCtx { ctx with buffer := b } code = executeCtx ctx code) ∧
    (∀ ctx : Context, (executeCtx ctx (("1+1").toList)).1.consoleOutput = []) ∧
    (∀ ctx : Context, (executeCtx ctx (("1+1").toList)).1.value = JsVal.num 2) ∧
    (∀ ctx : Context,
      (executeCtx (executeCtx ctx (("console.log(\x27x\x27)").toList)).2
        (("1+1").toList)).1.consoleOutput = []) := by
  have hone : ∀ ctx : Context, executeCtx ctx (("1+1").toList) =
      ({ value := JsVal.num 2, type := ("number").toList, isError := false,
         errMsg := none, consoleOutput := [], covered := false },
       { ctx with buffer := [] }) := by
    intro ctx
    cases ctx
    rfl
  refine ⟨?_, ?_, ?_, ?_⟩
  · intro ctx b code
    cases ctx
    rfl
  · intro ctx
    rw [hone]
  · intro ctx
    rw [hone]
  · intro ctx
    rw [hone]

/-- C3 (counterexample): the core engine's `execute` throws
`Context <id> not found` to the caller when the context id is unknown — this
failure path is not returned as an error-tagged result. -/
theorem c3_counterexample :
    EngineCore.execute [] (("doc").toList) (("1 + 1").toList) =
      .error (("Context doc not found").toList) := rfl

/-- C3 (amended): the core engine's `execute` returns normally exactly when
the context id is known — every other failure of a resolved evaluation is
caught and surfaced as an error-tagged result value, but an unknown contextId
escapes as a thrown error. -/
theorem c3_theorem :
    ∀ (reg : Registry) (cid code : Str),
      (∃ r, EngineCore.execute reg cid code = .ok r) ↔
        (regLookup reg cid).isSome = true := by
  intro reg cid code
  cases h : regLookup reg cid with
  | none =>
      constructor
      · rintro ⟨r, hr⟩
        unfold EngineCore.execute at hr
        rw [h] at hr
        cases hr
      · intro hs
        simp at hs
  | some ctx =>
      constructor
      · intro _
        rfl
      · intro _
        exact ⟨((EngineCore.executeCtxCore ctx code).1,
                regSet cid (EngineCore.executeCtxCore ctx code).2 reg),
               by unfold EngineCore.execute; rw [h]⟩

/-- C4 (counterexample): a declaration whose initializer throws still records
the declared name (`normalizeDeclarations` registers it before execution), so
retrying the same declaration is rewritten to a plain assignment and reports
the assigned value — not `undefined` as a first-time declaration would. -/
theorem c4_counterexample :
    (executeCtx (createContext (("d").toList)) (("const x = boom").toList)).1.isError = true ∧
    (executeCtx (createContext (("d").toList)) (("const x = boom").toList)).2.vars =
      [("x").toList] ∧
    (executeCtx (executeCtx (createContext (("d").toList))
      (("const x = boom").toList)).2 (("const x = 5").toList)).1.value = JsVal.num 5 ∧
    (executeCtx (executeCtx (createContext (("d").toList))
      (("const x = boom").toList)).2 (("const x = 5").toList)).1.value ≠ JsVal.undef := by
  decide

/-- C4 (amended): the bound name of a first-time declaration is recorded in
the context's registry during normalization, before — and regardless of — the
execution's outcome; any later snippet redeclaring a recorded name is
rewritten to a plain assignment. -/
theorem c4_theorem (ctx : Context) (code kw n v : Str)
    (hm : matchDeclaration (jsTrim code) = some (kw, n, v))
    (h1 : ctx.vars.contains n = false) (h2 : envHasKey ctx.env n = false) :
    (executeCtx ctx code).2.vars = n :: ctx.vars ∧
    (∀ ctx' : Context, ctx'.vars.contains n = true →
      normalizeDeclarations code ctx' = (n ++ (" = ").toList ++ v, ctx')) := by
  constructor
  · rw [executeCtx_vars]
    show (normalizeDeclarations code (clearBuf ctx)).2.vars = _
    rw [normalize_new code (clearBuf ctx) kw n v hm h1 h2]
    rfl
  · intro ctx' h1'
    exact normalize_known code ctx' kw n v hm h1'

/-- C4 (witness). -/
theorem c4_witness :
    (matchDeclaration (jsTrim (("const x = boom").toList)) =
      some ((("const").toList), (("x").toList), (("boom").toList)) ∧
     (createContext (("d").toList)).vars.contains (("x").toList) = false ∧
     envHasKey (createContext (("d").toList)).env (("x").toList) = false) ∧
    (executeCtx (createContext (("d").toList)) (("const x = boom").toList)).2.vars =
      ("x").toList :: (createContext (("d").toList)).vars ∧
    (∀ ctx' : Context, ctx'.vars.contains (("x").toList) = true →
      normalizeDeclarations (("const x = boom").toList) ctx' =
        ((("x").toList) ++ (" = ").toList ++ (("boom").toList), ctx')) :=
  ⟨⟨by decide, by decide, by decide⟩,
   c4_theorem (createContext (("d").toList)) (("const x = boom").toList)
     (("const").toList) (("x").toList) (("boom").toList) (by decide) (by decide) (by decide)⟩

/-- C5 (counterexample): the dangerous names are not absent from the scope —
they are present as explicit properties bound to `undefined`, in both the
engine's `createContext` sandbox and the `Sandbox` context. -/
theorem c5_counterexample :
    envHasKey createContextEnv (("process").toList) = true ∧
    envHasKey createContextEnv (("require").toList) = true ∧
    envHasKey createContextEnv (("module").toList) = true ∧
    envHasKey createContextEnv (("global").toList) = true ∧
    envHasKey createContextEnv (("__dirname").toList) = true ∧
    envHasKey createContextEnv (("__filename").toList) = true ∧
    envHasKey Sandbox.sandboxScopeEnv (("process").toList) = true := by
  decide

/-- C5 (amended): every context the engine creates (and every context rebuilt
by `clearContext`) binds process, require, module, global, __dirname and
__filename to `undefined` rather than omitting them, so `typeof` on each
yields `"undefined"`; the engine's scope merely omits `Function` and `eval`,
while the `Sandbox` variant explicitly binds them to `undefined` and disables
string code generation. -/
theorem c5_theorem :
    ∀ id : Str,
      envLookup (createContext id).env (("process").toList) = some JsVal.undef ∧
      envLookup (createContext id).env (("require").toList) = some JsVal.undef ∧
      envLookup (createContext id).env (("module").toList) = some JsVal.undef ∧
      envLookup (createContext id).env (("global").toList) = some JsVal.undef ∧
      envLookup (createContext id).env (("__dirname").toList) = some JsVal.undef ∧
      envLookup (createContext id).env (("__filename").toList) = some JsVal.undef ∧
      (executeCtx (createContext id) (("typeof process").toList)).1.value =
        JsVal.str (("undefined").toList) ∧
      (executeCtx (createContext id) (("typeof process").toList)).1.isError = false ∧
      (executeCtx (createContext id) (("typeof require").toList)).1.value =
        JsVal.str (("undefined").toList) ∧
      (executeCtx (createContext id) (("typeof global").toList)).1.value =
        JsVal.str (("undefined").toList) ∧
      envHasKey createContextEnv (("Function").toList) = false ∧
      envHasKey createContextEnv (("eval").toList) = false ∧
      envLookup Sandbox.sandboxScopeEnv (("Function").toList) = some JsVal.undef ∧
      envLookup Sandbox.sandboxScopeEnv (("eval").toList) = some JsVal.undef ∧
      Sandbox.codeGenerationStrings = false ∧
      (∀ (reg : Registry) (ctx : Context),
        regLookup (clearContext (regSet id ctx reg) id) id = some (createContext id)) := by
  intro id
  refine ⟨rfl, rfl, rfl, rfl, rfl, rfl, rfl, rfl, rfl, rfl, by decide, by decide,
    rfl, rfl, rfl, ?_⟩
  intro reg ctx
  simp [clearContext, regSet, regLookup]

/-- C6: the worker process hosts one long-lived execution context, so state
established by one execute request — here the global `x` assigned by
`x = 1` — is visible to subsequent execute requests served by the same live
worker process (`x` replies with 1), and in general the reply to each message
is computed against the shared state left by all the messages before it. -/
theorem c6_theorem :
    ((Worker.serve [("x = 1").toList, ("x").toList] Worker.initialWorker).1 =
      [{ ok := true, result := some (JsVal.num 1), errMsg := none, console := [] },
       { ok := true, result := some (JsVal.num 1), errMsg := none, console := [] }]) ∧
    (∀ st : Worker.WState,
      (Worker.handleExec (("x").toList)
        (Worker.handleExec (("x = 1").toList) st).2).1.result =
        some (JsVal.num 1)) ∧
    (∀ (msgs : List Str) (c : Str) (st : Worker.WState),
      Worker.serve (msgs ++ [c]) st =
        ((Worker.serve msgs st).1 ++
           [(Worker.handleExec c (Worker.serve msgs st).2).1],
         (Worker.handleExec c (Worker.serve msgs st).2).2)) := by
  refine ⟨by decide, ?_, ?_⟩
  · intro st
    cases st
    rfl
  · intro msgs c
    induction msgs with
    | nil => intro st; rfl
    | cons m rest ih =>
        intro st
        simp only [List.cons_append, Worker.serve, List.append_eq, ih]

/-- C7: when the worker process exits with requests outstanding, every pending
resolver is settled as a failure whose message indicates the worker exited,
the pending map is emptied, the session is marked dead, and the next execute
call respawns a live worker (registering a fresh pending entry). -/
theorem c7_theorem (s : Manager.MState)
    (hunres : ∀ id d, (id, d) ∈ s.pending →
      Manager.lookupRes s.resolved id = none) :
    (∀ id d, (id, d) ∈ s.pending →
      Manager.lookupRes (Manager.onExit s).resolved id =
        some Manager.workerExitedRes) ∧
    (Manager.onExit s).pending = [] ∧
    (Manager.onExit s).proc = .noProc ∧
    (∀ t : Nat,
      (Manager.execRegister (Manager.onExit s) t).1.proc = .live ∧
      ((Manager.execRegister (Manager.onExit s) t).2, t + 200) ∈
        (Manager.execRegister (Manager.onExit s) t).1.pending) := by
  refine ⟨?_, rfl, rfl, ?_⟩
  · intro id d hm
    exact foldResolve_mem s.pending s.resolved id d hm (hunres id d hm)
  · intro t
    exact ⟨rfl, List.mem_cons_self _ _⟩

/-- C7 (witness). -/
theorem c7_witness :
    ((1, 1200) ∈ (⟨.live, [(1, 1200)], 2, []⟩ : Manager.MState).pending) ∧
    Manager.lookupRes
      (Manager.onExit ⟨.live, [(1, 1200)], 2, []⟩).resolved 1 =
      some Manager.workerExitedRes ∧
    (Manager.onExit ⟨.live, [(1, 1200)], 2, []⟩).pending = [] ∧
    (Manager.execRegister (Manager.onExit ⟨.live, [(1, 1200)], 2, []⟩) 500).1.proc =
      .live := by
  have h := c7_theorem ⟨.live, [(1, 1200)], 2, []⟩ (by intro id d _; rfl)
  exact ⟨List.mem_cons_self _ _, h.1 1 1200 (List.mem_cons_self _ _),
    h.2.1, (h.2.2.2 500).1⟩

/-- C8 (counterexample): after the per-request timer fires, the worker is
killed and the promise is settled as a timeout, but the request's entry is
still in the pending map — it is not removed at the timeout, only later by a
matching response or the exit event. -/
theorem c8_counterexample :
    (Manager.onTimeoutFire (Manager.execRegister Manager.initial 1000).1
      (Manager.execRegister Manager.initial 1000).2).pending = [(1, 1200)] ∧
    Manager.lookupRes
      (Manager.onTimeoutFire (Manager.execRegister Manager.initial 1000).1
        (Manager.execRegister Manager.initial 1000).2).resolved 1 =
      some Manager.timeoutRes ∧
    (Manager.onTimeoutFire (Manager.execRegister Manager.initial 1000).1
      (Manager.execRegister Manager.initial 1000).2).proc = .killed := by
  decide

/-- C8 (amended): a request's pending entry carries deadline `timeout + 200`;
the entry is removed on a matching response and on process exit; the timeout
handler kills the worker and settles the promise as `timeout` but leaves the
pending map unchanged. -/
theorem c8_theorem :
    (∀ (s : Manager.MState) (t : Nat),
      ((Manager.execRegister s t).2, t + 200) ∈
        (Manager.execRegister s t).1.pending) ∧
    (∀ (s : Manager.MState) (id : Nat) (res : Manager.MResult),
      Manager.pendingHas s.pending id = true →
      (Manager.onMessage s id res).pending =
        s.pending.filter (fun q => q.1 ≠ id)) ∧
    (∀ s : Manager.MState, (Manager.onExit s).pending = []) ∧
    (∀ (s : Manager.MState) (id : Nat),
      (Manager.onTimeoutFire s id).pending = s.pending ∧
      (s.proc = .live → (Manager.onTimeoutFire s id).proc = .killed) ∧
      (Manager.lookupRes s.resolved id = none →
        Manager.lookupRes (Manager.onTimeoutFire s id).resolved id =
          some Manager.timeoutRes)) := by
  refine ⟨?_, ?_, ?_, ?_⟩
  · intro s t
    exact List.mem_cons_self _ _
  · intro s id res h
    simp [Manager.onMessage, h]
  · intro s
    rfl
  · intro s id
    refine ⟨rfl, ?_, ?_⟩
    · intro h
      simp [Manager.onTimeoutFire, h]
    · intro h
      exact lookupRes_resolveOnce_new s.resolved id Manager.timeoutRes h

/-- C8 (witness). -/
theorem c8_witness :
    (Manager.pendingHas [(1, 1200)] 1 = true ∧
     Manager.lookupRes ([] : List (Nat × Manager.MResult)) 1 = none ∧
     (⟨.live, [(1, 1200)], 2, []⟩ : Manager.MState).proc = .live) ∧
    (Manager.onMessage ⟨.live, [(1, 1200)], 2, []⟩ 1
      { ok := true, errMsg := none }).pending = [] ∧
    (Manager.onTimeoutFire ⟨.live, [(1, 1200)], 2, []⟩ 1).pending = [(1, 1200)] ∧
    Manager.lookupRes
      (Manager.onTimeoutFire ⟨.live, [(1, 1200)], 2, []⟩ 1).resolved 1 =
      some Manager.timeoutRes := by
  have h := c8_theorem
  refine ⟨⟨by decide, rfl, rfl⟩, ?_, ?_, ?_⟩
  · rw [h.2.1 ⟨.live, [(1, 1200)], 2, []⟩ 1 { ok := true, errMsg := none } (by decide)]
    decide
  · exact (h.2.2.2 ⟨.live, [(1, 1200)], 2, []⟩ 1).1
  · exact (h.2.2.2 ⟨.live, [(1, 1200)], 2, []⟩ 1).2.2 rfl

/-- C9: serializing with the cycle-detecting replacer terminates on every
object graph (fuel `nodes + 1` never runs out); formatting the canonical
self-referential object yields exactly one `[Circular]` marker at the cyclic
edge, with the object itself serialized normally around it; a serialization
failure (a BigInt field) degrades to the `[Object]` placeholder instead of
throwing. -/
theorem c9_theorem :
    (∀ (g : Fmt.FGraph) (ind : Str) (v : Fmt.FVal),
      Fmt.serVal g (Fmt.stdFuel g) [] ind v ≠ .fuelOut) ∧
    Fmt.formatValue ⟨[(0, [(("self").toList, .ref 0)])]⟩ (.ref 0) 100 =
      ("\x7b\n  \"self\": \"[Circular]\"\n\x7d").toList ∧
    Fmt.countOccur (("[Circular]").toList)
      (Fmt.formatValue ⟨[(0, [(("self").toList, .ref 0)])]⟩ (.ref 0) 100) = 1 ∧
    Fmt.formatValue ⟨[(0, [(("n").toList, .fbig 1)])]⟩ (.ref 0) 100 =
      ("[Object]").toList := by
  refine ⟨?_, by decide, by decide, by decide⟩
  intro g ind v
  apply serVal_nofuel
  have hle := List.length_filter_le
    (fun k => !(([] : List Nat).contains k)) (Fmt.keys g)
  unfold Fmt.unvisitedCard Fmt.stdFuel
  omega

/-- C10: when the first pass of `execute` completes with `undefined` and the
source's last non-empty line is not a declaration/control statement, the
engine evaluates that last line a second time in the same context: the
reported value is the second evaluation's value and the result's console
output (and the context's state) is that of running the program and then the
last line once more — so the final line's side effects happen twice, as the
doubled console line of `console.log('x')` shows. -/
theorem c10_theorem (ctx : Context) (code l : Str)
    (h1 : lastExprLine code = some l)
    (h2 : (firstPass ctx code).1.1 = Except.ok JsVal.undef) :
    ((executeCtx ctx code).1.value =
      (match (runProgram engineFmt l (firstPass ctx code).1.2).1 with
       | .ok w => w
       | .error _ => JsVal.undef) ∧
     (executeCtx ctx code).1.consoleOutput =
       (runProgram engineFmt l (firstPass ctx code).1.2).2.buffer ∧
     (executeCtx ctx code).2.env =
       (runProgram engineFmt l (firstPass ctx code).1.2).2.env) ∧
    (∀ ctx' : Context,
      (executeCtx ctx' (("console.log(\x27x\x27)").toList)).1.consoleOutput =
        [("[LOG] x").toList, ("[LOG] x").toList]) := by
  constructor
  · rcases hfp : (firstPass ctx code).1 with ⟨r, st1⟩
    have hr : r = Except.ok JsVal.undef := by rw [hfp] at h2; exact h2
    subst hr
    simp only [executeCtx, hfp, h1]
    cases hrun : runProgram engineFmt l st1 with
    | mk r2 st2 =>
        cases r2 with
        | ok w => exact ⟨rfl, rfl, rfl⟩
        | error e => exact ⟨rfl, rfl, rfl⟩
  · intro ctx'
    cases ctx'
    rfl

/-- C10 (witness). -/
theorem c10_witness :
    (lastExprLine (("console.log(\x27x\x27)").toList) =
      some (("console.log(\x27x\x27)").toList) ∧
     (firstPass (createContext (("d").toList))
       (("console.log(\x27x\x27)").toList)).1.1 = Except.ok JsVal.undef) ∧
    (executeCtx (createContext (("d").toList))
      (("console.log(\x27x\x27)").toList)).1.value =
      (match (runProgram engineFmt (("console.log(\x27x\x27)").toList)
        (firstPass (createContext (("d").toList))
          (("console.log(\x27x\x27)").toList)).1.2).1 with
       | .ok w => w
       | .error _ => JsVal.undef) ∧
    (executeCtx (createContext (("d").toList))
      (("console.log(\x27x\x27)").toList)).1.consoleOutput =
      [("[LOG] x").toList, ("[LOG] x").toList] :=
  ⟨⟨by decide, rfl⟩,
   ((c10_theorem (createContext (("d").toList)) (("console.log(\x27x\x27)").toList)
       (("console.log(\x27x\x27)").toList) (by decide) rfl).1).1,
   ((c10_theorem (createContext (("d").toList)) (("console.log(\x27x\x27)").toList)
       (("console.log(\x27x\x27)").toList) (by decide) rfl).2)
     (createContext (("d").toList))⟩
